import Mathlib

/-!
Shallow embedding of the out-of-process CoreAudio AAC encoder worker
(`encoder-proc/encoder-proc.cc` together with its protocol header
`encoder-proc/encoder-proc.h`).

Bytes are modelled as `Nat` values (normalised with `% 256` wherever the C
code interprets them as `uint8_t`), 32-bit fields as `Nat` values below
`2 ^ 32`, and the 64-bit running sample counter with explicit `% 2 ^ 64`
wrap-around.  The external AudioToolbox converter is an opaque collaborator:
each call to `AudioConverterFillComplexBuffer` is described by a
`conv_result` record (how many times it invoked the input callback, the
returned `OSStatus`, the produced packet count and output descriptor), and
the magic-cookie property query by an `Option (List Nat)`.
-/

/-- Flag bit 0 of `encoder_settings.flags`: allow the high-efficiency AAC
variants (`ENCODER_FLAG_ALLOW_HE_AAC` in encoder-proc.h). -/
def ENCODER_FLAG_ALLOW_HE_AAC : Nat := 1

/-- Flag bit 1 of `encoder_data_header.flags`: encode request
(`ENCODER_FLAG_QUERY_ENCODE` in encoder-proc.h). -/
def ENCODER_FLAG_QUERY_ENCODE : Nat := 2

/-- Flag bit 2 of `encoder_data_header.flags`: extra-data request
(`ENCODER_FLAG_QUERY_EXTRA_DATA` in encoder-proc.h). -/
def ENCODER_FLAG_QUERY_EXTRA_DATA : Nat := 4

/-- Flag bit 3 of `encoder_data_header.flags`: exit the session
(`ENCODER_FLAG_EXIT` in encoder-proc.h). -/
def ENCODER_FLAG_EXIT : Nat := 8

/-- The fixed-layout settings record of the handshake
(`struct encoder_settings` in encoder-proc.h): eight `uint32_t` fields. -/
structure encoder_settings where
  struct_size : Nat
  proc_version : Nat
  bitrate : Nat
  channels : Nat
  samplerate_in : Nat
  samplerate_out : Nat
  flags : Nat
  out_frames_per_packet : Nat
deriving DecidableEq

/-- Byte size of `struct encoder_settings`: eight `uint32_t` fields, no
padding, hence 32 bytes. -/
def settings_struct_size : Nat := 32

/-- Modelled from the spec: the protocol version constant
`ENCODER_PROC_VERSION` lives in the generated header
`encoder-proc-version.h`, which is not part of the sources; only equality
between the two sides' compiled constants is ever tested, so its concrete
value is irrelevant to every claim. -/
def ENCODER_PROC_VERSION : Nat := 1

/-- The fixed-layout header preceding every streamed payload
(`struct encoder_data_header` in encoder-proc.h): `uint32_t size`,
`uint32_t frames`, `int64_t pts`, `uint32_t flags`. -/
structure encoder_data_header where
  size : Nat
  frames : Nat
  pts : Int
  flags : Nat
deriving DecidableEq

/-- The per-instance mutable state of the worker's encoder
(`struct ca_encoder` in encoder-proc.cc); only the fields the
accumulation/timestamp/extra-data logic touches are kept.  The opaque
`converter` handle is represented by the external-call records instead. -/
structure ca_encoder where
  in_frame_size : Nat
  in_bytes_required : Nat
  input_buffer : List Nat
  encode_buffer : List Nat
  output_buffer_size : Nat
  total_samples : Nat
  priming_samples : Nat
  extra_data : List Nat
  channels : Nat
deriving DecidableEq

/-- Result of one invocation of the input callback
`complex_input_data_proc`: the updated encoder state, the value stored to
`*ioNumberDataPackets`, the slice of PCM bytes handed to the converter
(`none` when starved), and the returned `OSStatus`. -/
structure cidp_result where
  st : ca_encoder
  ioNumberDataPackets : Nat
  handed : Option (List Nat)
  status : Int
deriving DecidableEq

/-- The input callback `complex_input_data_proc` (encoder-proc.cc lines
621-649): if fewer than `in_bytes_required` bytes are accumulated it
reports 0 packets and status 1 without touching the buffers; otherwise it
moves exactly the first `in_bytes_required` bytes of `input_buffer` into
`encode_buffer`, hands that slice to the converter and reports
`in_bytes_required / in_frame_size` packets with status 0. -/
def complex_input_data_proc (ca : ca_encoder) : cidp_result :=
  if ca.input_buffer.length < ca.in_bytes_required then
    ⟨ca, 0, none, 1⟩
  else
    let slice := ca.input_buffer.take ca.in_bytes_required
    ⟨{ ca with
        encode_buffer := slice,
        input_buffer := ca.input_buffer.drop ca.in_bytes_required },
      ca.in_bytes_required / ca.in_frame_size, some slice, 0⟩

/-- State change of `n` consecutive invocations of the input callback by
the external converter during one `AudioConverterFillComplexBuffer` call. -/
def pullN : Nat → ca_encoder → ca_encoder
  | 0, ca => ca
  | n + 1, ca => pullN n (complex_input_data_proc ca).st

/-- Externally chosen behaviour of one `AudioConverterFillComplexBuffer`
call: how many times the converter invoked the input callback, the
`OSStatus` it returned, the packet count it stored back to `*packets`, the
`mDataByteSize` of `out_desc` and the bytes of the produced packet (the
content the codec wrote at `mData + mStartOffset`). -/
structure conv_result where
  pulls : Nat
  code : Int
  packets : Nat
  outSize : Nat
  outBytes : List Nat
deriving DecidableEq

/-- Reinterpret an unsigned 64-bit value as the signed `int64_t` it becomes
on assignment (two's-complement wrap-around). -/
def toInt64 (n : Nat) : Int :=
  if n % 2 ^ 64 < 2 ^ 63 then ((n % 2 ^ 64 : Nat) : Int)
  else ((n % 2 ^ 64 : Nat) : Int) - 2 ^ 64

/-- Unsigned 64-bit subtraction `a - b` (C `uint64_t` arithmetic, modulo
`2 ^ 64`). -/
def u64sub (a b : Nat) : Nat :=
  (a % 2 ^ 64 + (2 ^ 64 - b % 2 ^ 64)) % 2 ^ 64

/-- Return value of `aac_encode` (encoder-proc.cc lines 651-686): the
updated encoder state, the C `bool` result, the packet header left in
`*packet` and the bytes reachable through `*packet_data`. -/
structure encode_result where
  st : ca_encoder
  res : Bool
  packet : encoder_data_header
  packet_data : List Nat
deriving DecidableEq

/-- The worker's encode operation `aac_encode` (encoder-proc.cc lines
651-686).  `packet0` is the packet header the caller passed in (the main
loop initialises it to size 0); `conv` describes the external converter's
behaviour for this call.  Steps: append `frame->size` payload bytes to the
accumulation buffer; return `true` early if fewer than `in_bytes_required`
bytes are available; otherwise let the converter pull input via
`complex_input_data_proc`; a status other than 0 or 1 returns `false`; zero
produced packets returns `true` with the packet header untouched; otherwise
set `packet->pts = total_samples - priming_samples` (uint64 arithmetic
assigned to `int64_t`), `packet->size = out_desc.mDataByteSize`, and only
then advance `total_samples` by `in_bytes_required / in_frame_size`. -/
def aac_encode (conv : conv_result) (ca : ca_encoder) (frame : encoder_data_header)
    (frame_data : List Nat) (packet0 : encoder_data_header) : encode_result :=
  let ca1 := { ca with input_buffer := ca.input_buffer ++ frame_data.take frame.size }
  if ca1.input_buffer.length < ca1.in_bytes_required then
    ⟨ca1, true, packet0, []⟩
  else
    let ca2 := pullN conv.pulls ca1
    if conv.code ≠ 0 ∧ conv.code ≠ 1 then
      ⟨ca2, false, packet0, []⟩
    else if conv.packets = 0 then
      ⟨ca2, true, packet0, []⟩
    else
      ⟨{ ca2 with
          total_samples :=
            (ca2.total_samples + ca2.in_bytes_required / ca2.in_frame_size) % 2 ^ 64 },
        true,
        { packet0 with
            pts := toInt64 (u64sub ca2.total_samples ca2.priming_samples),
            size := conv.outSize },
        conv.outBytes⟩

/-- Outcome of one `ENCODER_FLAG_QUERY_ENCODE` branch of the worker's main
loop (encoder-proc.cc lines 1135-1145): the updated state, the value of the
local variable `encode_res` (which the loop never reads), the response
written to the data pipe (header plus payload; `write_header_data` sends
payload bytes only when the header size is nonzero), and whether the loop
keeps serving the session (it breaks only on a pipe write failure, which is
external; with writes succeeding it always continues). -/
structure step_result where
  st : ca_encoder
  encode_res : Bool
  response : encoder_data_header × List Nat
  continues : Bool
deriving DecidableEq

/-- The `ENCODER_FLAG_QUERY_ENCODE` branch of the worker's main loop
(encoder-proc.cc lines 1135-1145): initialise the response header to
`{size = 0, flags = ENCODER_FLAG_QUERY_ENCODE}` (remaining fields
zero-initialised), call `aac_encode`, then write the response header and
payload.  The boolean `encode_res` is assigned but never inspected before
the loop continues. -/
def encodeRequestStep (conv : conv_result) (ca : ca_encoder) (header : encoder_data_header)
    (payload : List Nat) : step_result :=
  let packet0 : encoder_data_header :=
    { size := 0, frames := 0, pts := 0, flags := ENCODER_FLAG_QUERY_ENCODE }
  let r := aac_encode conv ca header payload packet0
  ⟨r.st, r.res, (r.packet, if r.packet.size ≠ 0 then r.packet_data else []), true⟩

/-- Run a sequence of encode cycles: each element carries the payload the
host streams for that cycle and the external converter's behaviour for the
resulting `AudioConverterFillComplexBuffer` call.  The host-side header
carries the payload length, one frame and an arbitrary pts (the worker
ignores both pts and frames).  Returns the final state and the emitted
responses in order. -/
def runCycles (ca : ca_encoder) :
    List (List Nat × conv_result) → ca_encoder × List (encoder_data_header × List Nat)
  | [] => (ca, [])
  | (p, cv) :: rest =>
    let r := encodeRequestStep cv ca
      { size := p.length, frames := 1, pts := 0, flags := ENCODER_FLAG_QUERY_ENCODE } p
    let out := runCycles r.st rest
    (out.1, r.response :: out.2)

/-- An event of the PCM accumulation engine: an encode request appending
its payload to the back of `input_buffer` (the first line of `aac_encode`,
encoder-proc.cc line 654), or one pull of the converter's input callback
`complex_input_data_proc`. -/
inductive buf_event where
  | push : List Nat → buf_event
  | pull : buf_event
deriving DecidableEq

/-- Run a sequence of accumulation events, collecting the slices the input
callback handed to the converter, in order. -/
def runEvents (ca : ca_encoder) : List buf_event → ca_encoder × List (List Nat)
  | [] => (ca, [])
  | buf_event.push p :: rest =>
    runEvents { ca with input_buffer := ca.input_buffer ++ p } rest
  | buf_event.pull :: rest =>
    let r := complex_input_data_proc ca
    let out := runEvents r.st rest
    match r.handed with
    | some s => (out.1, s :: out.2)
    | none => (out.1, out.2)

/-- The payloads appended by a sequence of accumulation events. -/
def pushedPayloads (evs : List buf_event) : List (List Nat) :=
  evs.filterMap fun e =>
    match e with
    | buf_event.push p => some p
    | buf_event.pull => none

/-- Outcome of the worker's handshake (encoder-proc.cc lines 1090-1121):
whether `aac_create` (and with it any codec resource acquisition) was
reached, and the settings record echoed to the host, if any. -/
structure handshake_result where
  create_called : Bool
  echoed : Option encoder_settings
deriving DecidableEq

/-- The worker's handshake in `main_internal` (encoder-proc.cc lines
1090-1121): after reading the settings record it rejects on
`struct_size ≠ sizeof(settings)`, then on
`proc_version ≠ ENCODER_PROC_VERSION`, before any codec work.  Only then
is `aac_create` called; `create` abstracts its external outcome: `none`
if creation failed, `some ofpp` with the codec-chosen output
frames-per-packet otherwise.  On success the worker overwrites
`out_frames_per_packet` with `(uint32_t)ca->out_frames_per_packet` and
echoes the record. -/
def handshake (create : Option Nat) (s : encoder_settings) : handshake_result :=
  if s.struct_size ≠ settings_struct_size then ⟨false, none⟩
  else if s.proc_version ≠ ENCODER_PROC_VERSION then ⟨false, none⟩
  else
    match create with
    | none => ⟨true, none⟩
    | some ofpp => ⟨true, some { s with out_frames_per_packet := ofpp % 2 ^ 32 }⟩

/-- Format id `kAudioFormatMPEG4AAC`, the four-character code for plain
AAC-LC. -/
def kAudioFormatMPEG4AAC : Nat := 0x61616320

/-- Format id `kAudioFormatMPEG4AAC_HE`, the four-character code for
HE-AAC. -/
def kAudioFormatMPEG4AAC_HE : Nat := 0x61616368

/-- Format id `kAudioFormatMPEG4AAC_HE_V2`, the four-character code for
HE-AAC v2. -/
def kAudioFormatMPEG4AAC_HE_V2 : Nat := 0x61616370

/-- The priority list of candidate output formats
(`aac_formats` in encoder-proc.cc lines 435-439): HE-AAC v2, then HE-AAC,
then plain AAC-LC. -/
def aac_formats : List Nat :=
  [kAudioFormatMPEG4AAC_HE_V2, kAudioFormatMPEG4AAC_HE, kAudioFormatMPEG4AAC]

/-- The low-complexity-only candidate list (`aac_lc_formats` in
encoder-proc.cc lines 441-443). -/
def aac_lc_formats : List Nat := [kAudioFormatMPEG4AAC]

/-- `get_allowed_formats` (encoder-proc.cc lines 1018-1027): with no
settings the full list; otherwise the full list exactly when the
high-efficiency flag bit is set and the channel count is not 3, else the
LC-only list. -/
def get_allowed_formats : Option encoder_settings → List Nat
  | none => aac_formats
  | some s =>
    if s.flags &&& ENCODER_FLAG_ALLOW_HE_AAC ≠ 0 ∧ s.channels ≠ 3 then aac_formats
    else aac_lc_formats

/-- Descriptor tag `MP4ESDescrTag` (0x03). -/
def MP4ESDescrTag : Nat := 0x03

/-- Descriptor tag `MP4DecConfigDescrTag` (0x04). -/
def MP4DecConfigDescrTag : Nat := 0x04

/-- Descriptor tag `MP4DecSpecificDescrTag` (0x05). -/
def MP4DecSpecificDescrTag : Nat := 0x05

/-- Core loop of `read_descr_len` (encoder-proc.cc lines 694-705): read up
to `fuel` continuation bytes, 7 payload bits each, stopping at the first
byte with the high bit clear.  The buffer is the remaining suffix of the
descriptor blob; `none` models a read past the end of the allocation
(undefined behaviour in the C code, which has no bounds checks). -/
def read_descr_len_core : Nat → List Nat → Nat → Option (Nat × List Nat)
  | 0, bs, len => some (len, bs)
  | _ + 1, [], _ => none
  | fuel + 1, c :: bs, len =>
    let cb := c % 256
    let len1 := len * 128 + cb % 128
    if cb < 128 then some (len1, bs)
    else read_descr_len_core fuel bs len1

/-- `read_descr_len` (encoder-proc.cc lines 694-705): variable-length size
of up to 4 bytes. -/
def read_descr_len (bs : List Nat) : Option (Nat × List Nat) :=
  read_descr_len_core 4 bs 0

/-- `read_descr` (encoder-proc.cc lines 708-712): a tag byte followed by a
variable-length size. -/
def read_descr (bs : List Nat) : Option (Nat × Nat × List Nat) :=
  match bs with
  | [] => none
  | t :: rest =>
    match read_descr_len rest with
    | none => none
    | some (len, r) => some (t % 256, len, r)

/-- `read_esds_desc_ext` (encoder-proc.cc lines 715-744), the
elementary-stream-descriptor extractor.  The result distinguishes three
outcomes: `none` when the parse reads past the end of the blob (the C code
performs the read unchecked — undefined behaviour), `some none` when the
parse completes without assigning the output buffer (it is left as it
was), and `some (some p)` when the decoder-specific payload `p` was
assigned.  Pointer skips (`esds += n`) are modelled by `List.drop`, which
is also what the C pointer arithmetic yields as long as nothing past the
end is dereferenced. -/
def read_esds_desc_ext (desc_ext : List Nat) (version_flags : Bool) :
    Option (Option (List Nat)) :=
  let esds := if version_flags then desc_ext.drop 4 else desc_ext
  match read_descr esds with
  | none => none
  | some (tag, _, rest0) =>
    let rest1 := rest0.drop 2
    let rest2 := if tag = MP4ESDescrTag then rest1.drop 1 else rest1
    match read_descr rest2 with
    | none => none
    | some (tag2, _, rest3) =>
      if tag2 = MP4DecConfigDescrTag then
        match read_descr (rest3.drop 13) with
        | none => none
        | some (tag3, len, rest4) =>
          if tag3 = MP4DecSpecificDescrTag then
            if len ≤ rest4.length then some (some (rest4.take len)) else none
          else some none
      else some none

/-- The worker's `query_extra_data` (encoder-proc.cc lines 747-785): the
magic-cookie property query against the external converter is abstracted
by `cookie` (`none` when the query fails or reports zero size — the
function returns leaving `extra_data` untouched).  On a retrieved blob the
descriptor extractor runs; `extra_data` is assigned only when it finds the
decoder-specific payload.  The outer `none` propagates the extractor's
out-of-bounds case. -/
def query_extra_data (cookie : Option (List Nat)) (ca : ca_encoder) : Option ca_encoder :=
  match cookie with
  | none => some ca
  | some bytes =>
    match read_esds_desc_ext bytes false with
    | none => none
    | some none => some ca
    | some (some p) => some { ca with extra_data := p }

/-- Outcome of one `ENCODER_FLAG_QUERY_EXTRA_DATA` branch of the worker's
main loop: updated state, whether the codec was queried this time, and the
response written to the data pipe. -/
structure extra_step_result where
  st : ca_encoder
  queried : Bool
  response : encoder_data_header × List Nat
deriving DecidableEq

/-- The `ENCODER_FLAG_QUERY_EXTRA_DATA` branch of the worker's main loop
(encoder-proc.cc lines 1147-1156): query the codec only when the cached
`extra_data` is empty, then respond with the cached blob (header size is
its length, payload sent only when nonzero). -/
def extraDataStep (cookie : Option (List Nat)) (ca : ca_encoder) :
    Option extra_step_result :=
  if ca.extra_data.length ≠ 0 then
    some ⟨ca, false,
      ({ size := ca.extra_data.length, frames := 0, pts := 0,
         flags := ENCODER_FLAG_QUERY_EXTRA_DATA }, ca.extra_data)⟩
  else
    match query_extra_data cookie ca with
    | none => none
    | some ca1 =>
      some ⟨ca1, true,
        ({ size := ca1.extra_data.length, frames := 0, pts := 0,
           flags := ENCODER_FLAG_QUERY_EXTRA_DATA }, ca1.extra_data)⟩

/-- C9: the candidate output-format list tried at configuration time is
the three-element priority list (HE-AAC v2, then HE-AAC, then plain
AAC-LC) exactly when the allow-high-efficiency flag (bit 0) is set and
the channel count is not 3; if the flag is clear, or the channel count
equals 3, the list is the single-element AAC-LC list. -/
theorem c9_allowed_formats (s : encoder_settings) :
    (get_allowed_formats (some s) =
        [kAudioFormatMPEG4AAC_HE_V2, kAudioFormatMPEG4AAC_HE, kAudioFormatMPEG4AAC] ↔
      s.flags &&& ENCODER_FLAG_ALLOW_HE_AAC ≠ 0 ∧ s.channels ≠ 3) ∧
    (s.flags &&& ENCODER_FLAG_ALLOW_HE_AAC = 0 ∨ s.channels = 3 →
      get_allowed_formats (some s) = [kAudioFormatMPEG4AAC]) := by
  by_cases h : s.flags &&& ENCODER_FLAG_ALLOW_HE_AAC ≠ 0 ∧ s.channels ≠ 3
  · constructor
    · simp only [get_allowed_formats, if_pos h]
      exact ⟨fun _ => h, fun _ => rfl⟩
    · intro hc
      rcases h with ⟨h1, h2⟩
      rcases hc with hc | hc
      · exact absurd hc h1
      · exact absurd hc h2
  · constructor
    · simp only [get_allowed_formats, if_neg h]
      constructor
      · intro he
        exact absurd he (by decide)
      · intro hc
        exact absurd hc h
    · intro _
      simp only [get_allowed_formats, if_neg h]
      rfl

/-- Witness for C9: a 3-channel session with the high-efficiency flag set
still gets the LC-only list. -/
theorem c9_allowed_formats_witness :
    get_allowed_formats (some ⟨32, 1, 128000, 3, 48000, 0, 1, 0⟩) = [kAudioFormatMPEG4AAC] :=
  (c9_allowed_formats ⟨32, 1, 128000, 3, 48000, 0, 1, 0⟩).2 (Or.inr rfl)

/-- C3: for a valid settings record (matching struct size and protocol
version) whose codec creation succeeds with a positive
frames-per-packet value, the worker echoes a record with every field
equal to the sent one except `out_frames_per_packet`, which is
overwritten with that positive codec-chosen value. -/
theorem c3_handshake_echo (s : encoder_settings) (ofpp : Nat)
    (hsz : s.struct_size = settings_struct_size)
    (hver : s.proc_version = ENCODER_PROC_VERSION)
    (hpos : 0 < ofpp) (hlt : ofpp < 2 ^ 32) :
    ∃ e : encoder_settings, handshake (some ofpp) s = ⟨true, some e⟩ ∧
      e.struct_size = s.struct_size ∧ e.proc_version = s.proc_version ∧
      e.bitrate = s.bitrate ∧ e.channels = s.channels ∧
      e.samplerate_in = s.samplerate_in ∧ e.samplerate_out = s.samplerate_out ∧
      e.flags = s.flags ∧ e.out_frames_per_packet = ofpp ∧
      0 < e.out_frames_per_packet := by
  refine ⟨{ s with out_frames_per_packet := ofpp % 2 ^ 32 }, ?_, rfl, rfl, rfl, rfl, rfl, rfl,
    rfl, Nat.mod_eq_of_lt hlt, ?_⟩
  · simp [handshake, hsz, hver]
  · show 0 < ofpp % 2 ^ 32
    rw [Nat.mod_eq_of_lt hlt]
    exact hpos

/-- Witness for C3: a concrete valid record echoed with
`out_frames_per_packet = 1024`. -/
theorem c3_handshake_echo_witness :
    ∃ e : encoder_settings,
      handshake (some 1024) ⟨32, 1, 128000, 2, 48000, 0, 1, 0⟩ = ⟨true, some e⟩ ∧
      e.struct_size = 32 ∧ e.proc_version = 1 ∧ e.bitrate = 128000 ∧ e.channels = 2 ∧
      e.samplerate_in = 48000 ∧ e.samplerate_out = 0 ∧ e.flags = 1 ∧
      e.out_frames_per_packet = 1024 ∧ 0 < e.out_frames_per_packet := by
  obtain ⟨e, h⟩ := c3_handshake_echo ⟨32, 1, 128000, 2, 48000, 0, 1, 0⟩ 1024 rfl rfl
    (by decide) (by decide)
  exact ⟨e, h⟩

/-- C4: a settings record whose struct size or protocol version differs
from the worker's compiled constants fails the handshake before any codec
work: `aac_create` is never reached and nothing is echoed, whatever the
codec would have answered. -/
theorem c4_handshake_mismatch (s : encoder_settings) (create : Option Nat)
    (h : s.struct_size ≠ settings_struct_size ∨ s.proc_version ≠ ENCODER_PROC_VERSION) :
    handshake create s = ⟨false, none⟩ := by
  rcases h with h | h
  · simp [handshake, h]
  · by_cases h2 : s.struct_size = settings_struct_size
    · simp [handshake, h2, h]
    · simp [handshake, h2]

/-- Witness for C4: a record with a stale protocol version is rejected
with no codec work. -/
theorem c4_handshake_mismatch_witness :
    handshake (some 1024) ⟨32, 999, 128000, 2, 48000, 0, 1, 0⟩ = ⟨false, none⟩ :=
  c4_handshake_mismatch ⟨32, 999, 128000, 2, 48000, 0, 1, 0⟩ (some 1024)
    (Or.inr (by decide))

/-- C5, evaluation at the failing input: the encoder holds 16 bytes
(exactly one required push), the external converter pulls once and then
returns the fatal status -50 (`kAudio_ParamError`).  `aac_encode` does
return `false`, but the main loop stores that into `encode_res` without
ever reading it: it still writes a zero-size response — which the host
reads as a successful "no packet yet" — and keeps serving the session.
This contradicts the claim that no success response is emitted and that
the session is not reused. -/
theorem c5_codec_error_ignored :
    (aac_encode ⟨1, -50, 0, 0, []⟩
        ⟨8, 16, [], [], 32, 0, 0, [], 2⟩
        ⟨16, 1, 0, ENCODER_FLAG_QUERY_ENCODE⟩
        (List.replicate 16 7)
        ⟨0, 0, 0, ENCODER_FLAG_QUERY_ENCODE⟩).res = false ∧
    (encodeRequestStep ⟨1, -50, 0, 0, []⟩
        ⟨8, 16, [], [], 32, 0, 0, [], 2⟩
        ⟨16, 1, 0, ENCODER_FLAG_QUERY_ENCODE⟩
        (List.replicate 16 7)).encode_res = false ∧
    (encodeRequestStep ⟨1, -50, 0, 0, []⟩
        ⟨8, 16, [], [], 32, 0, 0, [], 2⟩
        ⟨16, 1, 0, ENCODER_FLAG_QUERY_ENCODE⟩
        (List.replicate 16 7)).response.1.size = 0 ∧
    (encodeRequestStep ⟨1, -50, 0, 0, []⟩
        ⟨8, 16, [], [], 32, 0, 0, [], 2⟩
        ⟨16, 1, 0, ENCODER_FLAG_QUERY_ENCODE⟩
        (List.replicate 16 7)).response.2 = [] ∧
    (encodeRequestStep ⟨1, -50, 0, 0, []⟩
        ⟨8, 16, [], [], 32, 0, 0, [], 2⟩
        ⟨16, 1, 0, ENCODER_FLAG_QUERY_ENCODE⟩
        (List.replicate 16 7)).continues = true := by
  decide

/-- C6: an encode request that leaves the accumulation buffer short of the
required push size, or a warm-up call on which the converter consumes
input without producing a packet (status 0 or the "starved" status 1 with
zero packets), succeeds and emits a response with zero-size payload. -/
theorem c6_no_packet_zero_size (conv : conv_result) (ca : ca_encoder)
    (header : encoder_data_header) (payload : List Nat)
    (hsz : header.size = payload.length)
    (hcase : ca.input_buffer.length + payload.length < ca.in_bytes_required ∨
      ((conv.code = 0 ∨ conv.code = 1) ∧ conv.packets = 0)) :
    (encodeRequestStep conv ca header payload).encode_res = true ∧
    (encodeRequestStep conv ca header payload).response.1.size = 0 ∧
    (encodeRequestStep conv ca header payload).response.2 = [] := by
  have htake : payload.take header.size = payload := by
    rw [hsz]
    exact List.take_length payload
  by_cases hshort : ca.input_buffer.length + payload.length < ca.in_bytes_required
  · simp [encodeRequestStep, aac_encode, htake, hshort]
  · rcases hcase with hc | ⟨hcode, hpk⟩
    · exact absurd hc hshort
    · have hnot : ¬(conv.code ≠ 0 ∧ conv.code ≠ 1) := by
        rcases hcode with h | h
        · exact fun hh => hh.1 h
        · exact fun hh => hh.2 h
      simp [encodeRequestStep, aac_encode, htake, hshort, hnot, hpk]

/-- Witness for C6: a 4-byte payload against an empty buffer requiring 16
bytes yields a successful zero-size response. -/
theorem c6_no_packet_zero_size_witness :
    (encodeRequestStep ⟨0, 0, 1, 0, []⟩ ⟨8, 16, [], [], 32, 0, 0, [], 2⟩
        ⟨4, 1, 0, ENCODER_FLAG_QUERY_ENCODE⟩ [1, 2, 3, 4]).encode_res = true ∧
    (encodeRequestStep ⟨0, 0, 1, 0, []⟩ ⟨8, 16, [], [], 32, 0, 0, [], 2⟩
        ⟨4, 1, 0, ENCODER_FLAG_QUERY_ENCODE⟩ [1, 2, 3, 4]).response.1.size = 0 ∧
    (encodeRequestStep ⟨0, 0, 1, 0, []⟩ ⟨8, 16, [], [], 32, 0, 0, [], 2⟩
        ⟨4, 1, 0, ENCODER_FLAG_QUERY_ENCODE⟩ [1, 2, 3, 4]).response.2 = [] :=
  c6_no_packet_zero_size ⟨0, 0, 1, 0, []⟩ ⟨8, 16, [], [], 32, 0, 0, [], 2⟩
    ⟨4, 1, 0, ENCODER_FLAG_QUERY_ENCODE⟩ [1, 2, 3, 4] rfl (Or.inl (by decide))

/-- C10: the `pts` and `frames` fields of an incoming encode-request
header never influence the encoder: two requests whose headers differ only
in those fields (same size, same flags, same payload, same converter
behaviour) produce identical states and identical responses. -/
theorem c10_header_pts_frames_ignored (conv : conv_result) (ca : ca_encoder)
    (size frames1 frames2 : Nat) (pts1 pts2 : Int) (flags : Nat) (payload : List Nat) :
    encodeRequestStep conv ca ⟨size, frames1, pts1, flags⟩ payload =
      encodeRequestStep conv ca ⟨size, frames2, pts2, flags⟩ payload := rfl

/-- C2: the accumulation engine preserves byte order.  Over any sequence
of appends (encode-request payloads) and callback pulls, the concatenation
of the slices handed to the codec followed by the bytes still accumulated
equals the initial buffer followed by the concatenation of all appended
payloads, and every handed slice is exactly `in_bytes_required` bytes. -/
theorem c2_fifo_order (evs : List buf_event) (ca : ca_encoder) :
    (runEvents ca evs).2.flatten ++ (runEvents ca evs).1.input_buffer =
      ca.input_buffer ++ (pushedPayloads evs).flatten ∧
    ∀ s ∈ (runEvents ca evs).2, s.length = ca.in_bytes_required := by
  induction evs generalizing ca with
  | nil => simp [runEvents, pushedPayloads]
  | cons e rest ih =>
    cases e with
    | push p =>
      have h := ih { ca with input_buffer := ca.input_buffer ++ p }
      refine ⟨?_, ?_⟩
      · calc (runEvents ca (buf_event.push p :: rest)).2.flatten ++
              (runEvents ca (buf_event.push p :: rest)).1.input_buffer
            = (ca.input_buffer ++ p) ++ (pushedPayloads rest).flatten := by
              simpa [runEvents] using h.1
          _ = ca.input_buffer ++ (pushedPayloads (buf_event.push p :: rest)).flatten := by
              simp [pushedPayloads, List.append_assoc]
      · intro s hs
        exact h.2 s (by simpa [runEvents] using hs)
    | pull =>
      by_cases hlt : ca.input_buffer.length < ca.in_bytes_required
      · have h := ih ca
        refine ⟨?_, ?_⟩
        · calc (runEvents ca (buf_event.pull :: rest)).2.flatten ++
                (runEvents ca (buf_event.pull :: rest)).1.input_buffer
              = (runEvents ca rest).2.flatten ++ (runEvents ca rest).1.input_buffer := by
                simp [runEvents, complex_input_data_proc, hlt]
            _ = ca.input_buffer ++ (pushedPayloads rest).flatten := h.1
            _ = ca.input_buffer ++ (pushedPayloads (buf_event.pull :: rest)).flatten := by
                simp [pushedPayloads]
        · intro s hs
          exact h.2 s (by simpa [runEvents, complex_input_data_proc, hlt] using hs)
      · have hle : ca.in_bytes_required ≤ ca.input_buffer.length := Nat.le_of_not_lt hlt
        have h := ih { ca with
          encode_buffer := ca.input_buffer.take ca.in_bytes_required,
          input_buffer := ca.input_buffer.drop ca.in_bytes_required }
        refine ⟨?_, ?_⟩
        · calc (runEvents ca (buf_event.pull :: rest)).2.flatten ++
                (runEvents ca (buf_event.pull :: rest)).1.input_buffer
              = ca.input_buffer.take ca.in_bytes_required ++
                  ((runEvents { ca with
                      encode_buffer := ca.input_buffer.take ca.in_bytes_required,
                      input_buffer := ca.input_buffer.drop ca.in_bytes_required } rest).2.flatten ++
                    (runEvents { ca with
                      encode_buffer := ca.input_buffer.take ca.in_bytes_required,
                      input_buffer := ca.input_buffer.drop ca.in_bytes_required } rest).1.input_buffer) := by
                simp [runEvents, complex_input_data_proc, hlt, List.append_assoc]
            _ = ca.input_buffer.take ca.in_bytes_required ++
                  (ca.input_buffer.drop ca.in_bytes_required ++ (pushedPayloads rest).flatten) := by
                rw [h.1]
            _ = ca.input_buffer ++ (pushedPayloads (buf_event.pull :: rest)).flatten := by
                rw [← List.append_assoc, List.take_append_drop]
                simp [pushedPayloads]
        · intro s hs
          have hs2 : s = ca.input_buffer.take ca.in_bytes_required ∨
              s ∈ (runEvents { ca with
                encode_buffer := ca.input_buffer.take ca.in_bytes_required,
                input_buffer := ca.input_buffer.drop ca.in_bytes_required } rest).2 := by
            simpa [runEvents, complex_input_data_proc, hlt] using hs
          rcases hs2 with hs2 | hs2
          · rw [hs2]
            exact List.length_take_of_le hle
          · exact h.2 s hs2

/-- Witness for C2: pushing `[1,2,3]` then `[4,5]` into an empty buffer
that requires 4 bytes per pull and pulling once hands the codec `[1,2,3,4]`
and leaves `[5]` accumulated. -/
theorem c2_fifo_order_witness :
    (runEvents ⟨8, 4, [], [], 32, 0, 0, [], 2⟩
        [buf_event.push [1, 2, 3], buf_event.push [4, 5], buf_event.pull]).2.flatten ++
      (runEvents ⟨8, 4, [], [], 32, 0, 0, [], 2⟩
        [buf_event.push [1, 2, 3], buf_event.push [4, 5], buf_event.pull]).1.input_buffer =
      [1, 2, 3, 4, 5] := by
  have h := c2_fifo_order [buf_event.push [1, 2, 3], buf_event.push [4, 5], buf_event.pull]
    ⟨8, 4, [], [], 32, 0, 0, [], 2⟩
  exact h.1.trans (by decide)

/-- C7 counterexample: applied to the truncated descriptor tree consisting
of the single tag byte `0x03`, the extractor does not return an empty
result — it reads past the end of the blob (the C code dereferences the
size byte unchecked; the model reports this undefined behaviour as
`none`), so the claim's "truncated tree returns empty without error or
crash" fails. -/
theorem c7_truncated_tree_oob :
    read_esds_desc_ext [MP4ESDescrTag] false = none ∧
    read_esds_desc_ext [MP4ESDescrTag] false ≠ some (some []) ∧
    read_esds_desc_ext [MP4ESDescrTag] false ≠ some none := by
  decide


/-- A variable-length descriptor size whose first byte has the high bit
clear is that single byte. -/
theorem read_descr_len_low (c : Nat) (bs : List Nat) (hc : c % 256 < 128) :
    read_descr_len (c :: bs) = some (c % 256 % 128, bs) := by
  show read_descr_len_core (Nat.succ 3) (c :: bs) 0 = _
  simp [read_descr_len_core, hc]

/-- A descriptor headed by a tag byte and a single low size byte parses to
that tag and size. -/
theorem read_descr_low (t c : Nat) (bs : List Nat) (hc : c % 256 < 128) :
    read_descr (t :: c :: bs) = some (t % 256, c % 256 % 128, bs) := by
  simp [read_descr, read_descr_len_low c bs hc]

/-- C7 (amended): on a length-prefixed descriptor tree whose reads all
stay inside the blob — an ES descriptor (tag 3, single-byte size `l1`, two
ID bytes, one priority byte), a second descriptor with tag byte `t2` and
single-byte size `l2`, thirteen fixed-width wrapper bytes, and an inner
descriptor with tag byte `t3`, single-byte size `payload.length` and
`payload` — the extractor returns exactly `payload` when `t2` is the
decoder-config tag (4) and `t3` the decoder-specific tag (5), and
completes leaving the output empty when either tag differs.  (Truncated
trees that drive a read past the end of the blob are undefined behaviour
instead, per the counterexample.) -/
theorem c7_esds_extraction (i1 i2 pr ot st b1 b2 b3 m1 m2 m3 m4 a1 a2 a3 a4 : Nat)
    (l1 l2 t2 t3 : Nat) (payload : List Nat)
    (hl1 : l1 % 256 < 128) (hl2 : l2 % 256 < 128) (hp : payload.length < 128) :
    read_esds_desc_ext
      (MP4ESDescrTag :: l1 :: i1 :: i2 :: pr :: t2 :: l2 :: ot :: st :: b1 :: b2 :: b3 ::
        m1 :: m2 :: m3 :: m4 :: a1 :: a2 :: a3 :: a4 :: t3 :: payload.length :: payload)
      false =
      some (if t2 % 256 = MP4DecConfigDescrTag then
              (if t3 % 256 = MP4DecSpecificDescrTag then some payload else none)
            else none) := by
  have hp256 : payload.length % 256 = payload.length :=
    Nat.mod_eq_of_lt (lt_trans hp (by norm_num))
  have hp3 : payload.length % 256 < 128 := by rw [hp256]; exact hp
  have h1 := read_descr_low MP4ESDescrTag l1
    (i1 :: i2 :: pr :: t2 :: l2 :: ot :: st :: b1 :: b2 :: b3 ::
      m1 :: m2 :: m3 :: m4 :: a1 :: a2 :: a3 :: a4 :: t3 :: payload.length :: payload) hl1
  have h2 := read_descr_low t2 l2
    (ot :: st :: b1 :: b2 :: b3 :: m1 :: m2 :: m3 :: m4 :: a1 :: a2 :: a3 :: a4 ::
      t3 :: payload.length :: payload) hl2
  have h3 := read_descr_low t3 payload.length payload hp3
  simp only [read_esds_desc_ext, Bool.false_eq_true, if_false, h1]
  norm_num [MP4ESDescrTag]
  simp only [h2]
  by_cases ht2 : t2 % 256 = MP4DecConfigDescrTag
  · simp only [ht2, if_pos rfl, List.drop, h3]
    by_cases ht3 : t3 % 256 = MP4DecSpecificDescrTag
    · have hlen : payload.length % 256 % 128 = payload.length := by
        rw [hp256]
        exact Nat.mod_eq_of_lt hp
      simp [ht3, hlen, List.take_length]
    · simp [ht3]
  · simp [ht2]

/-- Witness for C7: the synthetic tree with a tag-4 wrapper enclosing a
tag-5 descriptor with payload `[0xAA, 0xBB, 0xCC]` extracts exactly that
payload. -/
theorem c7_esds_extraction_witness :
    read_esds_desc_ext
      [3, 25, 0, 0, 0, 4, 17, 64, 21, 0, 0, 0, 0, 0, 0, 0, 0, 0, 0, 0, 5, 3, 170, 187, 204]
      false = some (some [170, 187, 204]) := by
  have h := c7_esds_extraction 0 0 0 64 21 0 0 0 0 0 0 0 0 0 0 0 25 17 4 5
    [170, 187, 204] (by decide) (by decide) (by decide)
  exact h.trans (by decide)

/-- C8: once an extra-data request has yielded a non-empty blob, any later
extra-data request in the same session answers with the identical cached
blob, leaves the state unchanged, and does not query the codec again
(whatever the codec's magic cookie would now be). -/
theorem c8_extra_data_cached (ca : ca_encoder) (cookie1 : Option (List Nat))
    (r1 : extra_step_result)
    (h1 : extraDataStep cookie1 ca = some r1)
    (hne : r1.response.2 ≠ []) :
    ∀ cookie2 : Option (List Nat),
      extraDataStep cookie2 r1.st = some ⟨r1.st, false, r1.response⟩ := by
  intro cookie2
  have hblob : r1.st.extra_data = r1.response.2 ∧
      r1.response.1 = ⟨r1.st.extra_data.length, 0, 0, ENCODER_FLAG_QUERY_EXTRA_DATA⟩ := by
    by_cases hc : ca.extra_data.length ≠ 0
    · rw [extraDataStep, if_pos hc] at h1
      cases h1
      exact ⟨rfl, rfl⟩
    · rw [extraDataStep, if_neg hc] at h1
      cases hq : query_extra_data cookie1 ca with
      | none => rw [hq] at h1; cases h1
      | some ca1 =>
        rw [hq] at h1
        cases h1
        exact ⟨rfl, rfl⟩
  have hlen : r1.st.extra_data.length ≠ 0 := by
    rw [hblob.1]
    intro h0
    exact hne (List.eq_nil_of_length_eq_zero h0)
  rw [extraDataStep, if_pos hlen]
  have h2 := hblob.2
  rw [hblob.1] at h2 ⊢
  rw [← h2, Prod.mk.eta]

/-- Witness for C8: a first request against an empty cache with the
synthetic cookie tree caches `[0xAA, 0xBB, 0xCC]`; a second request (here
with the codec's cookie query now failing) returns the identical blob
without querying. -/
theorem c8_extra_data_cached_witness :
    extraDataStep none
        ⟨8, 16, [], [], 32, 0, 0, [170, 187, 204], 2⟩ =
      some ⟨⟨8, 16, [], [], 32, 0, 0, [170, 187, 204], 2⟩, false,
        (⟨3, 0, 0, ENCODER_FLAG_QUERY_EXTRA_DATA⟩, [170, 187, 204])⟩ := by
  have h1 : extraDataStep
      (some [3, 25, 0, 0, 0, 4, 17, 64, 21, 0, 0, 0, 0, 0, 0, 0, 0, 0, 0, 0, 5, 3, 170, 187, 204])
      ⟨8, 16, [], [], 32, 0, 0, [], 2⟩ =
      some ⟨⟨8, 16, [], [], 32, 0, 0, [170, 187, 204], 2⟩, true,
        (⟨3, 0, 0, ENCODER_FLAG_QUERY_EXTRA_DATA⟩, [170, 187, 204])⟩ := by
    decide
  exact c8_extra_data_cached ⟨8, 16, [], [], 32, 0, 0, [], 2⟩
    (some [3, 25, 0, 0, 0, 4, 17, 64, 21, 0, 0, 0, 0, 0, 0, 0, 0, 0, 0, 0, 5, 3, 170, 187, 204])
    ⟨⟨8, 16, [], [], 32, 0, 0, [170, 187, 204], 2⟩, true,
      (⟨3, 0, 0, ENCODER_FLAG_QUERY_EXTRA_DATA⟩, [170, 187, 204])⟩
    h1 (by decide) none

/-- Unsigned 64-bit subtraction reinterpreted as `int64_t` computes the
exact integer difference while both operands are below `2 ^ 63`. -/
theorem toInt64_u64sub (a b : Nat) (ha : a < 2 ^ 63) (hb : b < 2 ^ 63) :
    toInt64 (u64sub a b) = (a : Int) - (b : Int) := by
  unfold toInt64 u64sub
  split_ifs with h <;> omega

/-- One encode cycle with enough accumulated input, a single converter
pull and a produced packet: the slice moves from the front of the
accumulation buffer into the encode scratch buffer, the packet carries
`pts = total_samples - priming_samples` and the converter's byte size, and
`total_samples` advances by `in_bytes_required / in_frame_size` frames. -/
theorem cycleStep_packet (p : List Nat) (cv : conv_result) (ca : ca_encoder)
    (hlen : ca.in_bytes_required ≤ p.length)
    (hpulls : cv.pulls = 1) (hcode : cv.code = 0) (hpk : cv.packets ≠ 0) :
    encodeRequestStep cv ca ⟨p.length, 1, 0, ENCODER_FLAG_QUERY_ENCODE⟩ p =
      ⟨{ ca with
          input_buffer := (ca.input_buffer ++ p).drop ca.in_bytes_required,
          encode_buffer := (ca.input_buffer ++ p).take ca.in_bytes_required,
          total_samples :=
            (ca.total_samples + ca.in_bytes_required / ca.in_frame_size) % 2 ^ 64 },
        true,
        ({ size := cv.outSize, frames := 0,
           pts := toInt64 (u64sub ca.total_samples ca.priming_samples),
           flags := ENCODER_FLAG_QUERY_ENCODE },
          if cv.outSize ≠ 0 then cv.outBytes else []),
        true⟩ := by
  have hshort : ¬ (ca.input_buffer.length + p.length < ca.in_bytes_required) := by
    omega
  have hnot2 : ¬ (cv.code ≠ 0 ∧ cv.code ≠ 1) := fun hh => hh.1 hcode
  simp [encodeRequestStep, aac_encode, pullN, complex_input_data_proc, List.take_length,
    hpulls, hshort, hnot2, hpk]

/-- Over a run of packet-producing cycles, the emitted packet timestamps
are `total_samples + i * k - priming_samples`, the packet sizes are the
converter's byte sizes, and the final sample total advances by `k` per
cycle, where `k = in_bytes_required / in_frame_size`. -/
theorem runCycles_pts_sizes (cycles : List (List Nat × conv_result)) :
    ∀ ca : ca_encoder,
      (∀ pc ∈ cycles, ca.in_bytes_required ≤ (pc.1 : List Nat).length ∧ pc.2.pulls = 1 ∧
        pc.2.code = 0 ∧ pc.2.packets ≠ 0) →
      ca.total_samples + cycles.length * (ca.in_bytes_required / ca.in_frame_size) < 2 ^ 63 →
      ca.priming_samples < 2 ^ 32 →
      ((runCycles ca cycles).2.map fun r => r.1.pts) =
        ((List.range cycles.length).map fun (i : Nat) =>
          (ca.total_samples : Int) +
            (i : Int) * ((ca.in_bytes_required / ca.in_frame_size : Nat) : Int) -
            (ca.priming_samples : Int)) ∧
      ((runCycles ca cycles).2.map fun r => r.1.size) = (cycles.map fun pc => pc.2.outSize) ∧
      (runCycles ca cycles).1.total_samples =
        ca.total_samples + cycles.length * (ca.in_bytes_required / ca.in_frame_size) := by
  induction cycles with
  | nil =>
    intro ca _ _ _
    simp [runCycles]
  | cons pc rest ih =>
    intro ca hcyc hbound hpr
    obtain ⟨p, cv⟩ := pc
    have h0 := hcyc (p, cv) (List.mem_cons_self _ _)
    have hstep := cycleStep_packet p cv ca h0.1 h0.2.1 h0.2.2.1 h0.2.2.2
    have hbound1 : ca.total_samples + ca.in_bytes_required / ca.in_frame_size +
        rest.length * (ca.in_bytes_required / ca.in_frame_size) < 2 ^ 63 := by
      rw [List.length_cons] at hbound
      calc ca.total_samples + ca.in_bytes_required / ca.in_frame_size +
              rest.length * (ca.in_bytes_required / ca.in_frame_size)
          = ca.total_samples + (rest.length + 1) * (ca.in_bytes_required / ca.in_frame_size) := by
            ring
        _ < 2 ^ 63 := hbound
    have htk : ca.total_samples + ca.in_bytes_required / ca.in_frame_size < 2 ^ 63 :=
      lt_of_le_of_lt (Nat.le_add_right _ _) hbound1
    have ht63 : ca.total_samples < 2 ^ 63 :=
      lt_of_le_of_lt (Nat.le_add_right _ _) htk
    have hpr63 : ca.priming_samples < 2 ^ 63 := lt_trans hpr (by norm_num)
    have hmod : (ca.total_samples + ca.in_bytes_required / ca.in_frame_size) % 2 ^ 64 =
        ca.total_samples + ca.in_bytes_required / ca.in_frame_size :=
      Nat.mod_eq_of_lt (lt_trans htk (by norm_num))
    have hih := ih { ca with
        input_buffer := (ca.input_buffer ++ p).drop ca.in_bytes_required,
        encode_buffer := (ca.input_buffer ++ p).take ca.in_bytes_required,
        total_samples :=
          (ca.total_samples + ca.in_bytes_required / ca.in_frame_size) % 2 ^ 64 }
      (fun qc hqc => hcyc qc (List.mem_cons_of_mem _ hqc))
      (by
        show (ca.total_samples + ca.in_bytes_required / ca.in_frame_size) % 2 ^ 64 +
          rest.length * (ca.in_bytes_required / ca.in_frame_size) < 2 ^ 63
        rw [hmod]
        exact hbound1)
      hpr
    simp only [runCycles, hstep] at hih ⊢
    refine ⟨?_, ?_, ?_⟩
    · rw [List.map_cons, hih.1, List.length_cons, List.range_succ_eq_map,
        List.map_cons, List.map_map]
      congr 1
      · show toInt64 (u64sub ca.total_samples ca.priming_samples) = _
        rw [toInt64_u64sub ca.total_samples ca.priming_samples ht63 hpr63]
        push_cast
        ring
      · refine List.map_congr_left ?_
        intro i _
        show ((ca.total_samples + ca.in_bytes_required / ca.in_frame_size) % 2 ^ 64 : Nat) +
            (i : Int) * ((ca.in_bytes_required / ca.in_frame_size : Nat) : Int) -
            (ca.priming_samples : Int) = _
        rw [hmod]
        show _ = (ca.total_samples : Int) +
            ((Nat.succ i : Nat) : Int) * ((ca.in_bytes_required / ca.in_frame_size : Nat) : Int) -
            (ca.priming_samples : Int)
        push_cast [Nat.succ_eq_add_one]
        ring
    · rw [List.map_cons, hih.2.1, List.map_cons]
    · rw [hih.2.2, hmod, List.length_cons]
      ring

/-- C1: starting from a fresh sample total, over `N` consecutive
successful encode cycles that each produce a packet and each consume
`k = in_bytes_required / in_frame_size` input frames (one converter pull
of one required push), the `i`-th emitted packet's pts equals
`i * k - priming_samples`, and every emitted response is a real packet
(nonzero size). -/
theorem c1_packet_pts (ca : ca_encoder) (cycles : List (List Nat × conv_result))
    (hcyc : ∀ pc ∈ cycles, ca.in_bytes_required ≤ (pc.1 : List Nat).length ∧ pc.2.pulls = 1 ∧
      pc.2.code = 0 ∧ pc.2.packets ≠ 0 ∧ pc.2.outSize ≠ 0)
    (ht0 : ca.total_samples = 0)
    (hpr : ca.priming_samples < 2 ^ 32)
    (hbound : cycles.length * (ca.in_bytes_required / ca.in_frame_size) < 2 ^ 63) :
    ((runCycles ca cycles).2.map fun r => r.1.pts) =
      ((List.range cycles.length).map fun (i : Nat) =>
        (i : Int) * ((ca.in_bytes_required / ca.in_frame_size : Nat) : Int) -
          (ca.priming_samples : Int)) ∧
    ∀ resp ∈ (runCycles ca cycles).2, resp.1.size ≠ 0 := by
  have h := runCycles_pts_sizes cycles ca
    (fun pc hpc =>
      ⟨(hcyc pc hpc).1, (hcyc pc hpc).2.1, (hcyc pc hpc).2.2.1, (hcyc pc hpc).2.2.2.1⟩)
    (by rw [ht0]; simpa using hbound)
    hpr
  constructor
  · rw [h.1, ht0]
    refine List.map_congr_left ?_
    intro i _
    push_cast
    ring
  · intro resp hresp
    have hmem : resp.1.size ∈ (runCycles ca cycles).2.map fun r => r.1.size :=
      List.mem_map_of_mem _ hresp
    rw [h.2.1] at hmem
    obtain ⟨pc, hpc, hEq⟩ := List.mem_map.mp hmem
    rw [← hEq]
    exact (hcyc pc hpc).2.2.2.2

/-- Witness for C1: frame size 4, required push 8 (so `k = 2`), priming 3;
two cycles each delivering one full push and producing a packet give
timestamps `[0*2-3, 1*2-3] = [-3, -1]`. -/
theorem c1_packet_pts_witness :
    ((runCycles ⟨4, 8, [], [], 32, 0, 3, [], 2⟩
        [(List.replicate 8 1, ⟨1, 0, 1, 5, [9]⟩),
         (List.replicate 8 2, ⟨1, 0, 1, 5, [9]⟩)]).2.map fun r => r.1.pts) = [-3, -1] := by
  have h := c1_packet_pts ⟨4, 8, [], [], 32, 0, 3, [], 2⟩
    [(List.replicate 8 1, ⟨1, 0, 1, 5, [9]⟩), (List.replicate 8 2, ⟨1, 0, 1, 5, [9]⟩)]
    (by decide) rfl (by decide) (by decide)
  exact h.1.trans (by decide)
